import Mathlib

/-!
Verification of the macadamia knowledge-base application (src/app.py).

The program interns name strings to numeric ids (`get_id`: strip surrounding
whitespace, then apostrophes, then double quotes, then look up or allocate a
fresh id), loads CSV rows into two fact relations `has_symptom(disease, symptom)`
and `treated_with(treatment, disease)`, derives
`cures_symptom(t, s) :- treated_with(t, d), has_symptom(d, s)`,
and answers four queries whose results are rendered as sorted, deduplicated
name lists (`parse_results` collects the answer ids into a set, maps them
through `get_name`, and sorts).

The embedding below follows the Python source line by line.  Ids are modelled
as `Nat` (the source uses 32-bit bit-vector values allocated from a counter
starting at 1; wraparound is unreachable for the hand-authored tables in
scope).  Exceptions that the Python code would raise (calling a Z3 relation
with a `None` argument, calling `.strip()` on a non-string) are modelled as
`Except.error` at the query level, and as loop abortion inside the loader's
`try ... except: pass` blocks.
-/

/-- Association-list lookup (models Python dict lookup; keys are unique). -/
def alookup {α β : Type} [DecidableEq α] (k : α) : List (α × β) → Option β
  | [] => none
  | p :: rest => if p.1 = k then some p.2 else alookup k rest

/-- Drop the characters satisfying `p` from both ends of a character list
(models one Python `str.strip(chars)` call). -/
def stripEnds (p : Char → Bool) (l : List Char) : List Char :=
  ((l.dropWhile p).reverse.dropWhile p).reverse

/-- Models `text.strip().strip("'").strip('"')` from `get_id` in src/app.py. -/
def pyClean (s : String) : String :=
  String.mk (stripEnds (fun c => c == '\"')
    (stripEnds (fun c => c == '\'') (stripEnds Char.isWhitespace s.toList)))

/-- Strict codepoint order on character lists (models Python string `<`). -/
def listLt : List Char → List Char → Bool
  | [], [] => false
  | [], _ :: _ => true
  | _ :: _, [] => false
  | a :: as, b :: bs => if a < b then true else if b < a then false else listLt as bs

/-- Strict lexicographic order on strings by Unicode code points, the order
used by Python's `sorted` on the result name sets. -/
def strLt (a b : String) : Bool := listLt a.toList b.toList

/-- Insert a string into a strictly ascending list, dropping it if already
present.  Used to model `sorted(list(<set>))`. -/
def insertSorted (x : String) : List String → List String
  | [] => [x]
  | y :: ys =>
    if strLt x y then x :: y :: ys
    else if strLt y x then y :: insertSorted x ys
    else y :: ys

/-- Models Python's `sorted(list(s))` for a set `s` collected from a list:
the strictly ascending enumeration of the distinct elements. -/
def sortDedup (l : List String) : List String := l.foldr insertSorted []

/-- An element of a parsed Python list literal: either a string or some
non-string value (whose exact shape is irrelevant: feeding it to `get_id`
or to a Z3 relation raises, which the loader's bare `except` catches). -/
inductive PyElem where
  | str (s : String)
  | nonStr
deriving DecidableEq

/-- A `symptoms`/`treatments` CSV cell after `ast.literal_eval`:
either the call raised (or produced a non-iterable) or it produced a list
of Python values. -/
inductive Cell where
  | bad
  | elems (l : List PyElem)
deriving DecidableEq

/-- One CSV row as seen by the loader: `row['name']` plus the two optional
cells (`none` models a missing or empty cell, for which `row.get(...)` is
falsy and the loader skips the block). -/
structure Row where
  name : String
  symptoms : Option Cell
  treatments : Option Cell
deriving DecidableEq

/-- The knowledge-base state built by `load_kb`: the two interning maps and
the allocation counter from the `get_id` closure, the two fact relations
registered with the fixedpoint engine, and the raw name sets collected for
the UI dropdowns (modelled as duplicate-free lists). -/
structure KB where
  strToId : List (String × Nat)
  idToStr : List (Nat × String)
  counter : Nat
  hasSymptom : List (Nat × Nat)
  treatedWith : List (Nat × Nat)
  allSymptoms : List String
  allDiseases : List String
deriving DecidableEq

/-- The state before any row is loaded (`counter = 1` as in src/app.py). -/
def emptyKB : KB := ⟨[], [], 1, [], [], [], []⟩

/-- Allocate a fresh id for a cleaned string (the `clean not in str_to_id`
branch of `get_id`). -/
def intern (st : KB) (c : String) : KB :=
  { st with
      strToId := (c, st.counter) :: st.strToId
      idToStr := (st.counter, c) :: st.idToStr
      counter := st.counter + 1 }

/-- `get_id` on a string argument: empty text is falsy and yields `None`;
otherwise the cleaned text is looked up, interning it first if new. -/
def get_id_str (st : KB) (s : String) : Option Nat × KB :=
  if s = "" then (none, st)
  else
    match alookup (pyClean s) st.strToId with
    | some i => (some i, st)
    | none => (some st.counter, intern st (pyClean s))

/-- `get_id` as called at query time on a selectbox value, which is either
`None` (no selection, falsy, yields `None`) or a string. -/
def get_id (st : KB) (sel : Option String) : Option Nat × KB :=
  match sel with
  | none => (none, st)
  | some s => get_id_str st s

/-- `get_name`: decode an id back to its interned string, falling back to
the printed value exactly as `id_to_str.get(val.as_long(), str(val))` does. -/
def getName (st : KB) (i : Nat) : String :=
  (alookup i st.idToStr).getD (toString i)

/-- Add a string to a Python set modelled as a duplicate-free list. -/
def addStr (s : String) (l : List String) : List String :=
  if s ∈ l then l else s :: l

/-- The symptom loop of the loader:
`for s in ...: fp.fact(has_symptom(disease_id, get_id(s))); all_symptoms.add(s)`
inside `try ... except: pass`.  A non-string element makes `get_id` (or the
fact call) raise, aborting the rest of the loop; an empty-string element makes
`get_id` return `None` and the fact call raise; a `None` disease id makes the
fact call raise after the symptom was interned. -/
def loadSymptoms : KB → Option Nat → List PyElem → KB
  | st, _, [] => st
  | st, did, PyElem.str s :: rest =>
    match get_id_str st s with
    | (some sid, st1) =>
      match did with
      | some d =>
        loadSymptoms
          { st1 with
              hasSymptom := st1.hasSymptom ++ [(d, sid)]
              allSymptoms := addStr s st1.allSymptoms } did rest
      | none => st1
    | (none, st1) => st1
  | st, _, PyElem.nonStr :: _ => st

/-- The treatment loop of the loader:
`for t in ...: fp.fact(treated_with(get_id(t), disease_id))` inside
`try ... except: pass`, with the same abort behaviour as the symptom loop. -/
def loadTreatments : KB → Option Nat → List PyElem → KB
  | st, _, [] => st
  | st, did, PyElem.str s :: rest =>
    match get_id_str st s with
    | (some tid, st1) =>
      match did with
      | some d =>
        loadTreatments
          { st1 with treatedWith := st1.treatedWith ++ [(tid, d)] } did rest
      | none => st1
    | (none, st1) => st1
  | st, _, PyElem.nonStr :: _ => st

/-- The guarded symptom block of the loader: it runs only when the cell is
present (truthy) and `ast.literal_eval` produced an iterable. -/
def loadSymCell (st : KB) (did : Option Nat) : Option Cell → KB
  | some (Cell.elems l) => loadSymptoms st did l
  | _ => st

/-- The guarded treatment block of the loader. -/
def loadTreatCell (st : KB) (did : Option Nat) : Option Cell → KB
  | some (Cell.elems l) => loadTreatments st did l
  | _ => st

/-- Load one CSV row: intern the disease name, record the raw name for the
dropdown, then run the two guarded loops. -/
def loadRow (st : KB) (row : Row) : KB :=
  let p := get_id_str st row.name
  let st1 := { p.2 with allDiseases := addStr row.name p.2.allDiseases }
  loadTreatCell (loadSymCell st1 p.1 row.symptoms) p.1 row.treatments

/-- Load every row of the CSV in order. -/
def load_rows (rows : List Row) : KB := rows.foldl loadRow emptyKB

/-- What `load_kb` hands to the rest of the app when the file exists: the
state plus `sorted(list(all_symptoms))` and `sorted(list(all_diseases))`. -/
structure LoadedKB where
  kb : KB
  symptoms : List String
  diseases : List String
deriving DecidableEq

/-- `load_kb`: `none` input models `FileNotFoundError`, for which the Python
function returns a tuple of `None`s; otherwise the rows are loaded. -/
def load_kb (file : Option (List Row)) : Option LoadedKB :=
  match file with
  | none => none
  | some rows =>
    let st := load_rows rows
    some ⟨st, sortDedup st.allSymptoms, sortDedup st.allDiseases⟩

/-- The user-visible message shown when the CSV is missing. -/
def kbMissingMsg : String := "Error: macadamia.csv file not found."

/-- The startup sequence after `load_kb`: `if not fp: st.error(...); st.stop()`.
`Except.error` models the halted app, `Except.ok` the running app. -/
def app_start (file : Option (List Row)) : Except String LoadedKB :=
  match load_kb file with
  | none => Except.error kbMissingMsg
  | some k => Except.ok k

/-- `parse_results` composed with the query answer: the collected ids are
decoded with `get_name`, deduplicated (a Python set) and sorted. -/
def namesOf (st : KB) (ids : List Nat) : List String :=
  sortDedup (ids.map (getName st))

/-- Tab 1 diagnosis: `fp.query(has_symptom(d_var, get_id(selected_symptom)))`.
A `None` id makes the relation application raise (`Except.error`); otherwise
the answer is the decoded set of disease ids related to the symptom id. -/
def diseasesWith (st : KB) (sel : Option String) : Except Unit (List String) × KB :=
  match get_id st sel with
  | (none, st1) => (Except.error (), st1)
  | (some sid, st1) =>
    (Except.ok (namesOf st1
      (st1.hasSymptom.filterMap fun p => if p.2 = sid then some p.1 else none)), st1)

/-- Tab 2 symptoms: `fp.query(has_symptom(get_id(selected_disease), s_var))`. -/
def symptomsOf (st : KB) (sel : Option String) : Except Unit (List String) × KB :=
  match get_id st sel with
  | (none, st1) => (Except.error (), st1)
  | (some did, st1) =>
    (Except.ok (namesOf st1
      (st1.hasSymptom.filterMap fun p => if p.1 = did then some p.2 else none)), st1)

/-- Tab 2 treatments: `fp.query(treated_with(t_var, get_id(selected_disease)))`. -/
def treatmentsOf (st : KB) (sel : Option String) : Except Unit (List String) × KB :=
  match get_id st sel with
  | (none, st1) => (Except.error (), st1)
  | (some did, st1) =>
    (Except.ok (namesOf st1
      (st1.treatedWith.filterMap fun p => if p.2 = did then some p.1 else none)), st1)

/-- Tab 1 prescription: `fp.query(cures_symptom(t_var, get_id(selected_symptom)))`
where `cures_symptom(t, s) :- treated_with(t, d), has_symptom(d, s)` is the
rule installed by `load_kb`. -/
def treatmentsFor (st : KB) (sel : Option String) : Except Unit (List String) × KB :=
  match get_id st sel with
  | (none, st1) => (Except.error (), st1)
  | (some sid, st1) =>
    (Except.ok (namesOf st1
      (st1.treatedWith.filterMap fun p =>
        if (p.2, sid) ∈ st1.hasSymptom then some p.1 else none)), st1)

/-- The list a query renders: the payload of an `ok` result, nothing for a
raised exception. -/
def okL : Except Unit (List String) → List String
  | Except.ok l => l
  | Except.error _ => []

/-- Strictly ascending in the order rendered by Python's `sorted`. -/
def SortedStr (l : List String) : Prop := l.Pairwise (fun a b => strLt a b = true)

/-- The invariant of the interning state reached by `load_kb`: the two maps
are mutually inverse, every allocated id is below the counter, and every id
occurring in a fact is decodable. -/
structure KBInv (st : KB) : Prop where
  s2i_i2s : ∀ k i, alookup k st.strToId = some i → alookup i st.idToStr = some k
  i2s_s2i : ∀ i k, alookup i st.idToStr = some k → alookup k st.strToId = some i
  s2i_lt : ∀ k i, alookup k st.strToId = some i → i < st.counter
  i2s_lt : ∀ i k, alookup i st.idToStr = some k → i < st.counter
  hs_dom : ∀ p, p ∈ st.hasSymptom →
    (alookup p.1 st.idToStr).isSome ∧ (alookup p.2 st.idToStr).isSome
  tw_dom : ∀ p, p ∈ st.treatedWith →
    (alookup p.1 st.idToStr).isSome ∧ (alookup p.2 st.idToStr).isSome

/-- Both interning maps only grow: every existing binding survives. -/
def MapsExt (st st1 : KB) : Prop :=
  (∀ k i, alookup k st.strToId = some i → alookup k st1.strToId = some i) ∧
  (∀ i k, alookup i st.idToStr = some k → alookup i st1.idToStr = some k)

/-- The two-row table from the specification's worked example. -/
def exampleRows : List Row :=
  [⟨"Anthracnose", some (Cell.elems [PyElem.str "leaf spot", PyElem.str "dieback"]),
      some (Cell.elems [PyElem.str "copper fungicide"])⟩,
   ⟨"Husk Rot", some (Cell.elems [PyElem.str "leaf spot"]),
      some (Cell.elems [PyElem.str "fungicide X"])⟩]

/-- A table whose symptom cell carries a leading space inside the quotes:
the raw name " x" is kept for the dropdown but interned as "x". -/
def spacedRows : List Row := [⟨"D", some (Cell.elems [PyElem.str " x"]), none⟩]

/-- A table whose disease name is interned as " D " (stripping the quotes
exposes surrounding spaces), so re-cleaning the interned name misses it. -/
def quotedRows : List Row :=
  [⟨"\" D \"", some (Cell.elems [PyElem.str "s"]), some (Cell.elems [PyElem.str "t"])⟩]

/-- A table whose symptom cell parses to a list holding a non-string after a
valid string element. -/
def mixedRows : List Row :=
  [⟨"D", some (Cell.elems [PyElem.str "a", PyElem.nonStr]), none⟩]

/-- Modelled from the spec sentence "treatmentsFor(s) = sorted distinct union
of treatmentsOf(d) for every d in diseasesWith(s)": the refinement comparison
definition follows the words of the spec, feeding the names returned by
`diseasesWith` back into `treatmentsOf`. -/
def treatmentsForSpecUnion (st : KB) (s : String) : List String :=
  sortDedup ((okL (diseasesWith st (some s)).1).foldr
    (fun d acc => okL (treatmentsOf st (some d)).1 ++ acc) [])

/-! ### Theorems -/

theorem char_eq_of_not_lt {x y : Char} (h1 : ¬ x < y) (h2 : ¬ y < x) : x = y :=
  le_antisymm (le_of_not_lt h2) (le_of_not_lt h1)

theorem listLt_irrefl : ∀ l : List Char, listLt l l = false
  | [] => rfl
  | a :: as => by simp [listLt, lt_irrefl, listLt_irrefl as]

theorem listLt_cons (a b : Char) (as bs : List Char) :
    listLt (a :: as) (b :: bs) =
      if a < b then true else if b < a then false else listLt as bs := rfl

theorem listLt_trans :
    ∀ {a b c : List Char}, listLt a b = true → listLt b c = true → listLt a c = true := by
  intro a
  induction a with
  | nil =>
    intro b c h1 h2
    cases c with
    | nil =>
      cases b with
      | nil => simp [listLt] at h1
      | cons y ys => simp [listLt] at h2
    | cons z zs => simp [listLt]
  | cons x xs ih =>
    intro b c h1 h2
    cases b with
    | nil => simp [listLt] at h1
    | cons y ys =>
      cases c with
      | nil => simp [listLt] at h2
      | cons z zs =>
        rw [listLt_cons] at h1 h2 ⊢
        by_cases hxy : x < y
        · by_cases hyz : y < z
          · rw [if_pos (lt_trans hxy hyz)]
          · by_cases hzy : z < y
            · rw [if_neg hyz, if_pos hzy] at h2; exact absurd h2 (by simp)
            · have hyeq : y = z := char_eq_of_not_lt hyz hzy
              rw [if_pos (hyeq ▸ hxy)]
        · by_cases hyx : y < x
          · rw [if_neg hxy, if_pos hyx] at h1; exact absurd h1 (by simp)
          · have hxeq : x = y := char_eq_of_not_lt hxy hyx
            subst hxeq
            rw [if_neg hxy, if_neg hyx] at h1
            by_cases hxz : x < z
            · rw [if_pos hxz]
            · by_cases hzx : z < x
              · rw [if_neg hxz, if_pos hzx] at h2; exact absurd h2 (by simp)
              · rw [if_neg hxz, if_neg hzx] at h2 ⊢
                exact ih h1 h2

theorem listLt_eq_of_not :
    ∀ {a b : List Char}, listLt a b = false → listLt b a = false → a = b := by
  intro a
  induction a with
  | nil =>
    intro b h1 _
    cases b with
    | nil => rfl
    | cons y ys => simp [listLt] at h1
  | cons x xs ih =>
    intro b h1 h2
    cases b with
    | nil => simp [listLt] at h2
    | cons y ys =>
      rw [listLt_cons] at h1 h2
      by_cases hxy : x < y
      · rw [if_pos hxy] at h1; exact absurd h1 (by simp)
      · by_cases hyx : y < x
        · rw [if_pos hyx] at h2; exact absurd h2 (by simp)
        · have hxeq : x = y := char_eq_of_not_lt hxy hyx
          subst hxeq
          rw [if_neg hxy, if_neg hyx] at h1 h2
          exact congrArg (x :: ·) (ih h1 h2)

theorem strLt_irrefl (a : String) : strLt a a = false := listLt_irrefl a.toList

theorem strLt_trans {a b c : String} (h1 : strLt a b = true) (h2 : strLt b c = true) :
    strLt a c = true := listLt_trans h1 h2

theorem strLt_eq_of_not {a b : String} (h1 : strLt a b = false) (h2 : strLt b a = false) :
    a = b :=
  String.toList_inj.mp (listLt_eq_of_not h1 h2)

theorem insertSorted_cons (x y : String) (ys : List String) :
    insertSorted x (y :: ys) =
      if strLt x y = true then x :: y :: ys
      else if strLt y x = true then y :: insertSorted x ys
      else y :: ys := rfl

theorem mem_insertSorted {z x : String} :
    ∀ {l : List String}, z ∈ insertSorted x l ↔ (z = x ∨ z ∈ l) := by
  intro l
  induction l with
  | nil => simp [insertSorted]
  | cons y ys ih =>
    rw [insertSorted_cons]
    by_cases hxy : strLt x y = true
    · rw [if_pos hxy]; simp [List.mem_cons]
    · rw [if_neg hxy]
      by_cases hyx : strLt y x = true
      · rw [if_pos hyx]
        simp only [List.mem_cons, ih]
        tauto
      · rw [if_neg hyx]
        have hxeq : x = y :=
          strLt_eq_of_not (Bool.not_eq_true _ ▸ hxy) (Bool.not_eq_true _ ▸ hyx)
        subst hxeq
        simp only [List.mem_cons]
        tauto

theorem sortedStr_insertSorted {x : String} :
    ∀ {l : List String}, SortedStr l → SortedStr (insertSorted x l) := by
  intro l
  induction l with
  | nil => intro _; exact List.pairwise_singleton _ _
  | cons y ys ih =>
    intro h
    rcases List.pairwise_cons.mp h with ⟨hy, hys⟩
    rw [insertSorted_cons]
    by_cases hxy : strLt x y = true
    · rw [if_pos hxy]
      refine List.pairwise_cons.mpr ⟨?_, h⟩
      intro z hz
      rcases List.mem_cons.mp hz with rfl | hz
      · exact hxy
      · exact strLt_trans hxy (hy z hz)
    · rw [if_neg hxy]
      by_cases hyx : strLt y x = true
      · rw [if_pos hyx]
        refine List.pairwise_cons.mpr ⟨?_, ih hys⟩
        intro z hz
        rcases mem_insertSorted.mp hz with rfl | hz
        · exact hyx
        · exact hy z hz
      · rw [if_neg hyx]
        exact h

theorem sortedStr_sortDedup : ∀ l : List String, SortedStr (sortDedup l)
  | [] => List.Pairwise.nil
  | a :: l => sortedStr_insertSorted (sortedStr_sortDedup l)

theorem mem_sortDedup {z : String} : ∀ {l : List String}, z ∈ sortDedup l ↔ z ∈ l := by
  intro l
  induction l with
  | nil => simp [sortDedup]
  | cons a l ih =>
    show z ∈ insertSorted a (sortDedup l) ↔ _
    rw [mem_insertSorted, ih]
    simp [List.mem_cons, eq_comm]

theorem nodup_sortDedup (l : List String) : (sortDedup l).Nodup := by
  refine (sortedStr_sortDedup l).imp ?_
  intro a b hab
  intro heq
  subst heq
  rw [strLt_irrefl] at hab
  exact Bool.false_ne_true hab

theorem insertSorted_ne_nil (x : String) : ∀ l : List String, insertSorted x l ≠ []
  | [] => by simp [insertSorted]
  | y :: ys => by
    simp only [insertSorted]
    by_cases hxy : strLt x y <;> by_cases hyx : strLt y x <;> simp [hxy, hyx]

theorem sortDedup_eq_nil {l : List String} : sortDedup l = [] ↔ l = [] := by
  cases l with
  | nil => simp [sortDedup]
  | cons a l =>
    constructor
    · intro h; exact absurd h (insertSorted_ne_nil a (sortDedup l))
    · intro h; cases h

theorem alookup_cons {α β : Type} [DecidableEq α] (k a : α) (b : β) (rest : List (α × β)) :
    alookup k ((a, b) :: rest) = if a = k then some b else alookup k rest := rfl

theorem alookup_cons_isSome {α β : Type} [DecidableEq α] {k : α} (a : α) (b : β)
    {rest : List (α × β)} (h : (alookup k rest).isSome) :
    (alookup k ((a, b) :: rest)).isSome := by
  rw [alookup_cons]
  by_cases hk : a = k
  · rw [if_pos hk]; rfl
  · rw [if_neg hk]; exact h

theorem kbInv_emptyKB : KBInv emptyKB :=
  ⟨fun _ _ hk => Option.noConfusion hk, fun _ _ hk => Option.noConfusion hk,
   fun _ _ hk => Option.noConfusion hk, fun _ _ hk => Option.noConfusion hk,
   fun _ hp => absurd hp (List.not_mem_nil _), fun _ hp => absurd hp (List.not_mem_nil _)⟩

theorem mapsExt_refl (st : KB) : MapsExt st st :=
  ⟨fun _ _ h => h, fun _ _ h => h⟩

theorem mapsExt_trans {s1 s2 s3 : KB} (h1 : MapsExt s1 s2) (h2 : MapsExt s2 s3) :
    MapsExt s1 s3 :=
  ⟨fun k i h => h2.1 k i (h1.1 k i h), fun i k h => h2.2 i k (h1.2 i k h)⟩

theorem mapsExt_isSome {st st1 : KB} (h : MapsExt st st1) {i : Nat}
    (hi : (alookup i st.idToStr).isSome) : (alookup i st1.idToStr).isSome := by
  rcases Option.isSome_iff_exists.mp hi with ⟨k, hk⟩
  exact Option.isSome_iff_exists.mpr ⟨k, h.2 i k hk⟩

theorem intern_strToId (st : KB) (c : String) :
    (intern st c).strToId = (c, st.counter) :: st.strToId := rfl

theorem intern_idToStr (st : KB) (c : String) :
    (intern st c).idToStr = (st.counter, c) :: st.idToStr := rfl

theorem kbInv_intern {st : KB} {c : String} (h : KBInv st)
    (hc : alookup c st.strToId = none) : KBInv (intern st c) := by
  constructor
  · intro k i hk
    rw [intern_strToId, alookup_cons] at hk
    rw [intern_idToStr, alookup_cons]
    by_cases hkc : c = k
    · rw [if_pos hkc] at hk
      have hi : i = st.counter := (Option.some.inj hk).symm
      subst hi
      rw [if_pos rfl]
      exact congrArg some hkc
    · rw [if_neg hkc] at hk
      have hlt : i < st.counter := h.s2i_lt k i hk
      rw [if_neg (Nat.ne_of_gt hlt)]
      exact h.s2i_i2s k i hk
  · intro i k hk
    rw [intern_idToStr, alookup_cons] at hk
    rw [intern_strToId, alookup_cons]
    by_cases hic : st.counter = i
    · rw [if_pos hic] at hk
      have hkc : k = c := (Option.some.inj hk).symm
      subst hkc
      rw [if_pos rfl]
      exact congrArg some hic
    · rw [if_neg hic] at hk
      have hold := h.i2s_s2i i k hk
      have hkc : ¬ c = k := by
        intro hck
        subst hck
        rw [hold] at hc
        cases hc
      rw [if_neg hkc]
      exact hold
  · intro k i hk
    rw [intern_strToId, alookup_cons] at hk
    show i < st.counter + 1
    by_cases hkc : c = k
    · rw [if_pos hkc] at hk
      have : st.counter = i := Option.some.inj hk
      omega
    · rw [if_neg hkc] at hk
      have := h.s2i_lt k i hk
      omega
  · intro i k hk
    rw [intern_idToStr, alookup_cons] at hk
    show i < st.counter + 1
    by_cases hic : st.counter = i
    · omega
    · rw [if_neg hic] at hk
      have := h.i2s_lt i k hk
      omega
  · intro p hp
    have hd := h.hs_dom p hp
    exact ⟨alookup_cons_isSome _ _ hd.1, alookup_cons_isSome _ _ hd.2⟩
  · intro p hp
    have hd := h.tw_dom p hp
    exact ⟨alookup_cons_isSome _ _ hd.1, alookup_cons_isSome _ _ hd.2⟩

theorem mapsExt_intern {st : KB} {c : String} (h : KBInv st)
    (hc : alookup c st.strToId = none) : MapsExt st (intern st c) := by
  constructor
  · intro k i hk
    have hkc : ¬ c = k := by
      intro hck; subst hck; rw [hk] at hc; cases hc
    rw [intern_strToId, alookup_cons, if_neg hkc]
    exact hk
  · intro i k hk
    have hlt : i < st.counter := h.i2s_lt i k hk
    rw [intern_idToStr, alookup_cons, if_neg (Nat.ne_of_gt hlt)]
    exact hk

/-- Full case analysis of `get_id` on a nonempty string: the result is always
an id bound to the cleaned text, the facts and name lists never change, and
the state either stays put (text already interned) or gains one fresh id. -/
theorem get_id_str_spec {st : KB} {s : String} (h : KBInv st) (hs : s ≠ "") :
    ∃ i st1, get_id_str st s = (some i, st1) ∧ KBInv st1 ∧ MapsExt st st1 ∧
      st1.hasSymptom = st.hasSymptom ∧ st1.treatedWith = st.treatedWith ∧
      st1.allSymptoms = st.allSymptoms ∧ st1.allDiseases = st.allDiseases ∧
      alookup (pyClean s) st1.strToId = some i ∧
      ((alookup (pyClean s) st.strToId = some i ∧ st1 = st) ∨
        (alookup (pyClean s) st.strToId = none ∧ i = st.counter ∧
          st1 = intern st (pyClean s))) := by
  cases hl : alookup (pyClean s) st.strToId with
  | some i =>
    have hg : get_id_str st s = (some i, st) := by
      unfold get_id_str
      rw [if_neg hs, hl]
    exact ⟨i, st, hg, h, mapsExt_refl st, rfl, rfl, rfl, rfl, hl, Or.inl ⟨rfl, rfl⟩⟩
  | none =>
    have hg : get_id_str st s = (some st.counter, intern st (pyClean s)) := by
      unfold get_id_str
      rw [if_neg hs, hl]
    refine ⟨st.counter, intern st (pyClean s), hg, kbInv_intern h hl, mapsExt_intern h hl,
      rfl, rfl, rfl, rfl, ?_, Or.inr ⟨rfl, rfl, rfl⟩⟩
    rw [intern_strToId, alookup_cons, if_pos rfl]

theorem addStr_mono {x s : String} {l : List String} (h : x ∈ l) : x ∈ addStr s l := by
  unfold addStr
  by_cases hs : s ∈ l
  · rw [if_pos hs]; exact h
  · rw [if_neg hs]; exact List.mem_cons_of_mem s h

theorem addStr_self (s : String) (l : List String) : s ∈ addStr s l := by
  unfold addStr
  by_cases hs : s ∈ l
  · rw [if_pos hs]; exact hs
  · rw [if_neg hs]; exact List.mem_cons_self s l

theorem get_id_str_keeps (st : KB) (s : String) :
    (get_id_str st s).2.hasSymptom = st.hasSymptom ∧
    (get_id_str st s).2.treatedWith = st.treatedWith ∧
    (get_id_str st s).2.allSymptoms = st.allSymptoms ∧
    (get_id_str st s).2.allDiseases = st.allDiseases := by
  unfold get_id_str
  by_cases hs : s = ""
  · rw [if_pos hs]; exact ⟨rfl, rfl, rfl, rfl⟩
  · rw [if_neg hs]
    cases alookup (pyClean s) st.strToId <;> exact ⟨rfl, rfl, rfl, rfl⟩

theorem loadSymptoms_cons_str (st : KB) (did : Option Nat) (s : String) (rest : List PyElem) :
    loadSymptoms st did (PyElem.str s :: rest) =
      match get_id_str st s with
      | (some sid, st1) =>
        match did with
        | some d =>
          loadSymptoms
            { st1 with
                hasSymptom := st1.hasSymptom ++ [(d, sid)]
                allSymptoms := addStr s st1.allSymptoms } did rest
        | none => st1
      | (none, st1) => st1 := rfl

theorem loadTreatments_cons_str (st : KB) (did : Option Nat) (s : String) (rest : List PyElem) :
    loadTreatments st did (PyElem.str s :: rest) =
      match get_id_str st s with
      | (some tid, st1) =>
        match did with
        | some d =>
          loadTreatments { st1 with treatedWith := st1.treatedWith ++ [(tid, d)] } did rest
        | none => st1
      | (none, st1) => st1 := rfl

theorem get_id_str_empty (st : KB) : get_id_str st "" = (none, st) := by
  unfold get_id_str
  rw [if_pos rfl]

theorem kbInv_addFact {st : KB} (h : KBInv st) {d sid : Nat}
    (hd : (alookup d st.idToStr).isSome) (hsid : (alookup sid st.idToStr).isSome)
    (s : String) :
    KBInv { st with
              hasSymptom := st.hasSymptom ++ [(d, sid)]
              allSymptoms := addStr s st.allSymptoms } := by
  refine ⟨h.s2i_i2s, h.i2s_s2i, h.s2i_lt, h.i2s_lt, ?_, h.tw_dom⟩
  intro p hp
  rcases List.mem_append.mp hp with hp | hp
  · exact h.hs_dom p hp
  · rcases List.mem_singleton.mp hp with rfl
    exact ⟨hd, hsid⟩

theorem kbInv_addTreat {st : KB} (h : KBInv st) {tid d : Nat}
    (htid : (alookup tid st.idToStr).isSome) (hd : (alookup d st.idToStr).isSome) :
    KBInv { st with treatedWith := st.treatedWith ++ [(tid, d)] } := by
  refine ⟨h.s2i_i2s, h.i2s_s2i, h.s2i_lt, h.i2s_lt, h.hs_dom, ?_⟩
  intro p hp
  rcases List.mem_append.mp hp with hp | hp
  · exact h.tw_dom p hp
  · rcases List.mem_singleton.mp hp with rfl
    exact ⟨htid, hd⟩

theorem idBound_some {st : KB} (h : KBInv st) {c : String} {i : Nat}
    (hb : alookup c st.strToId = some i) : (alookup i st.idToStr).isSome := by
  rw [h.s2i_i2s c i hb]; rfl

theorem loadSymptoms_spec :
    ∀ (l : List PyElem) (st : KB) (did : Option Nat), KBInv st →
      (∀ d, did = some d → (alookup d st.idToStr).isSome) →
      KBInv (loadSymptoms st did l) ∧ MapsExt st (loadSymptoms st did l) ∧
      (loadSymptoms st did l).treatedWith = st.treatedWith ∧
      (loadSymptoms st did l).allDiseases = st.allDiseases ∧
      (∀ x, x ∈ st.allSymptoms → x ∈ (loadSymptoms st did l).allSymptoms) := by
  intro l
  induction l with
  | nil =>
    intro st did h _
    exact ⟨h, mapsExt_refl st, rfl, rfl, fun _ hx => hx⟩
  | cons v rest ih =>
    intro st did h hdid
    cases v with
    | nonStr => exact ⟨h, mapsExt_refl st, rfl, rfl, fun _ hx => hx⟩
    | str s =>
      by_cases hse : s = ""
      · subst hse
        rw [loadSymptoms_cons_str, get_id_str_empty]
        exact ⟨h, mapsExt_refl st, rfl, rfl, fun _ hx => hx⟩
      · rcases get_id_str_spec h hse with
          ⟨sid, st1, hg, h1, hm1, hhs, htw, hsym, hdis, hbind, _⟩
        rw [loadSymptoms_cons_str, hg]
        cases did with
        | none =>
          exact ⟨h1, hm1, htw, hdis, fun x hx => hsym ▸ hx⟩
        | some d =>
          have hd1 : (alookup d st1.idToStr).isSome :=
            mapsExt_isSome hm1 (hdid d rfl)
          have hsid1 : (alookup sid st1.idToStr).isSome := idBound_some h1 hbind
          set st2 : KB :=
            { st1 with
                hasSymptom := st1.hasSymptom ++ [(d, sid)]
                allSymptoms := addStr s st1.allSymptoms } with hst2
          have h2 : KBInv st2 := kbInv_addFact h1 hd1 hsid1 s
          have hm12 : MapsExt st1 st2 := ⟨fun _ _ hk => hk, fun _ _ hk => hk⟩
          have hd2 : ∀ e, (some d : Option Nat) = some e → (alookup e st2.idToStr).isSome := by
            intro e he
            cases Option.some.inj he
            exact hd1
          rcases ih st2 (some d) h2 hd2 with ⟨hI, hM, hT, hD, hS⟩
          refine ⟨hI, mapsExt_trans (mapsExt_trans hm1 hm12) hM, ?_, ?_, ?_⟩
          · rw [hT]; exact htw
          · rw [hD]; exact hdis
          · intro x hx
            exact hS x (addStr_mono (hsym ▸ hx))

theorem loadTreatments_spec :
    ∀ (l : List PyElem) (st : KB) (did : Option Nat), KBInv st →
      (∀ d, did = some d → (alookup d st.idToStr).isSome) →
      KBInv (loadTreatments st did l) ∧ MapsExt st (loadTreatments st did l) ∧
      (loadTreatments st did l).hasSymptom = st.hasSymptom ∧
      (loadTreatments st did l).allDiseases = st.allDiseases ∧
      (∀ x, x ∈ st.allSymptoms → x ∈ (loadTreatments st did l).allSymptoms) := by
  intro l
  induction l with
  | nil =>
    intro st did h _
    exact ⟨h, mapsExt_refl st, rfl, rfl, fun _ hx => hx⟩
  | cons v rest ih =>
    intro st did h hdid
    cases v with
    | nonStr => exact ⟨h, mapsExt_refl st, rfl, rfl, fun _ hx => hx⟩
    | str s =>
      by_cases hse : s = ""
      · subst hse
        rw [loadTreatments_cons_str, get_id_str_empty]
        exact ⟨h, mapsExt_refl st, rfl, rfl, fun _ hx => hx⟩
      · rcases get_id_str_spec h hse with
          ⟨tid, st1, hg, h1, hm1, hhs, htw, hsym, hdis, hbind, _⟩
        rw [loadTreatments_cons_str, hg]
        cases did with
        | none =>
          exact ⟨h1, hm1, hhs, hdis, fun x hx => hsym ▸ hx⟩
        | some d =>
          have hd1 : (alookup d st1.idToStr).isSome :=
            mapsExt_isSome hm1 (hdid d rfl)
          have htid1 : (alookup tid st1.idToStr).isSome := idBound_some h1 hbind
          set st2 : KB := { st1 with treatedWith := st1.treatedWith ++ [(tid, d)] } with hst2
          have h2 : KBInv st2 := kbInv_addTreat h1 htid1 hd1
          have hm12 : MapsExt st1 st2 := ⟨fun _ _ hk => hk, fun _ _ hk => hk⟩
          have hd2 : ∀ e, (some d : Option Nat) = some e → (alookup e st2.idToStr).isSome := by
            intro e he
            cases Option.some.inj he
            exact hd1
          rcases ih st2 (some d) h2 hd2 with ⟨hI, hM, hT, hD, hS⟩
          refine ⟨hI, mapsExt_trans (mapsExt_trans hm1 hm12) hM, ?_, ?_, ?_⟩
          · rw [hT]; exact hhs
          · rw [hD]; exact hdis
          · intro x hx
            exact hS x (hsym ▸ hx)

theorem loadRow_eq (st : KB) (row : Row) (r : Option Nat) (st0 : KB)
    (hg : get_id_str st row.name = (r, st0)) :
    loadRow st row =
      loadTreatCell
        (loadSymCell { st0 with allDiseases := addStr row.name st0.allDiseases }
          r row.symptoms) r row.treatments := by
  unfold loadRow
  rw [hg]

theorem loadSymCell_spec (st : KB) (did : Option Nat) (c : Option Cell) (h : KBInv st)
    (hdid : ∀ d, did = some d → (alookup d st.idToStr).isSome) :
    KBInv (loadSymCell st did c) ∧ MapsExt st (loadSymCell st did c) ∧
    (loadSymCell st did c).treatedWith = st.treatedWith ∧
    (loadSymCell st did c).allDiseases = st.allDiseases ∧
    (∀ x, x ∈ st.allSymptoms → x ∈ (loadSymCell st did c).allSymptoms) := by
  cases c with
  | none => exact ⟨h, mapsExt_refl st, rfl, rfl, fun _ hx => hx⟩
  | some cc =>
    cases cc with
    | bad => exact ⟨h, mapsExt_refl st, rfl, rfl, fun _ hx => hx⟩
    | elems l => exact loadSymptoms_spec l st did h hdid

theorem loadTreatCell_spec (st : KB) (did : Option Nat) (c : Option Cell) (h : KBInv st)
    (hdid : ∀ d, did = some d → (alookup d st.idToStr).isSome) :
    KBInv (loadTreatCell st did c) ∧ MapsExt st (loadTreatCell st did c) ∧
    (loadTreatCell st did c).hasSymptom = st.hasSymptom ∧
    (loadTreatCell st did c).allDiseases = st.allDiseases ∧
    (∀ x, x ∈ st.allSymptoms → x ∈ (loadTreatCell st did c).allSymptoms) := by
  cases c with
  | none => exact ⟨h, mapsExt_refl st, rfl, rfl, fun _ hx => hx⟩
  | some cc =>
    cases cc with
    | bad => exact ⟨h, mapsExt_refl st, rfl, rfl, fun _ hx => hx⟩
    | elems l => exact loadTreatments_spec l st did h hdid

theorem loadRow_spec (st : KB) (row : Row) (h : KBInv st) :
    KBInv (loadRow st row) ∧ MapsExt st (loadRow st row) ∧
    row.name ∈ (loadRow st row).allDiseases := by
  have hbase : ∃ r st0, get_id_str st row.name = (r, st0) ∧ KBInv st0 ∧ MapsExt st st0 ∧
      (∀ d, r = some d → (alookup d st0.idToStr).isSome) := by
    by_cases hne : row.name = ""
    · refine ⟨none, st, ?_, h, mapsExt_refl st, ?_⟩
      · rw [hne]; exact get_id_str_empty st
      · intro d hd; cases hd
    · rcases get_id_str_spec h hne with ⟨i, st1, hg, h1, hm1, _, _, _, _, hbind, _⟩
      refine ⟨some i, st1, hg, h1, hm1, ?_⟩
      intro d hd
      cases Option.some.inj hd
      exact idBound_some h1 hbind
  rcases hbase with ⟨r, st0, hg, h0, hm0, hr⟩
  rw [loadRow_eq st row r st0 hg]
  set st1 : KB := { st0 with allDiseases := addStr row.name st0.allDiseases } with hst1
  have h1 : KBInv st1 := ⟨h0.s2i_i2s, h0.i2s_s2i, h0.s2i_lt, h0.i2s_lt, h0.hs_dom, h0.tw_dom⟩
  have hm1 : MapsExt st st1 := mapsExt_trans hm0 ⟨fun _ _ hk => hk, fun _ _ hk => hk⟩
  have hr1 : ∀ d, r = some d → (alookup d st1.idToStr).isSome := hr
  have hmem1 : row.name ∈ st1.allDiseases := addStr_self row.name st0.allDiseases
  rcases loadSymCell_spec st1 r row.symptoms h1 hr1 with ⟨h2, hm2, _, hD2, _⟩
  set st2 := loadSymCell st1 r row.symptoms with hst2
  have hr2 : ∀ d, r = some d → (alookup d st2.idToStr).isSome := by
    intro d hd
    exact mapsExt_isSome hm2 (hr1 d hd)
  rcases loadTreatCell_spec st2 r row.treatments h2 hr2 with ⟨h3, hm3, _, hD3, _⟩
  refine ⟨h3, mapsExt_trans hm1 (mapsExt_trans hm2 hm3), ?_⟩
  rw [hD3, hD2]
  exact hmem1

theorem kbInv_foldl :
    ∀ (rows : List Row) (st : KB), KBInv st → KBInv (rows.foldl loadRow st)
  | [], _, h => h
  | row :: rows, st, h => kbInv_foldl rows (loadRow st row) (loadRow_spec st row h).1

/-- Every state produced by the loader satisfies the interning invariant. -/
theorem kbInv_load_rows (rows : List Row) : KBInv (load_rows rows) :=
  kbInv_foldl rows emptyKB kbInv_emptyKB

theorem getName_eq {st : KB} {i : Nat} {k : String}
    (hk : alookup i st.idToStr = some k) : getName st i = k := by
  unfold getName
  rw [hk]
  rfl

theorem mem_namesOf {st st1 : KB} (h : KBInv st) (hm : MapsExt st st1) (ids : List Nat)
    (hdom : ∀ j, j ∈ ids → (alookup j st.idToStr).isSome) (x : String) :
    x ∈ namesOf st1 ids ↔ ∃ j, j ∈ ids ∧ alookup x st.strToId = some j := by
  unfold namesOf
  rw [mem_sortDedup, List.mem_map]
  constructor
  · rintro ⟨j, hj, hx⟩
    rcases Option.isSome_iff_exists.mp (hdom j hj) with ⟨k, hk⟩
    rw [getName_eq (hm.2 j k hk)] at hx
    subst hx
    exact ⟨j, hj, h.i2s_s2i j k hk⟩
  · rintro ⟨j, hj, hx⟩
    exact ⟨j, hj, getName_eq (hm.2 j x (h.s2i_i2s x j hx))⟩

theorem mem_filterMap_snd {facts : List (Nat × Nat)} {sid j : Nat} :
    (j ∈ facts.filterMap fun p => if p.2 = sid then some p.1 else none) ↔
      (j, sid) ∈ facts := by
  rw [List.mem_filterMap]
  constructor
  · rintro ⟨p, hp, hf⟩
    by_cases hc : p.2 = sid
    · rw [if_pos hc] at hf
      have hj : p.1 = j := Option.some.inj hf
      have hpj : p = (j, sid) := by
        cases p
        cases hj
        cases hc
        rfl
      exact hpj ▸ hp
    · rw [if_neg hc] at hf
      cases hf
  · intro hp
    exact ⟨(j, sid), hp, by rw [if_pos rfl]⟩

theorem mem_filterMap_fst {facts : List (Nat × Nat)} {did j : Nat} :
    (j ∈ facts.filterMap fun p => if p.1 = did then some p.2 else none) ↔
      (did, j) ∈ facts := by
  rw [List.mem_filterMap]
  constructor
  · rintro ⟨p, hp, hf⟩
    by_cases hc : p.1 = did
    · rw [if_pos hc] at hf
      have hj : p.2 = j := Option.some.inj hf
      have hpj : p = (did, j) := by
        cases p
        cases hj
        cases hc
        rfl
      exact hpj ▸ hp
    · rw [if_neg hc] at hf
      cases hf
  · intro hp
    exact ⟨(did, j), hp, by rw [if_pos rfl]⟩

theorem mem_filterMap_join {tw hs : List (Nat × Nat)} {sid j : Nat} :
    (j ∈ tw.filterMap fun p => if (p.2, sid) ∈ hs then some p.1 else none) ↔
      ∃ d, (j, d) ∈ tw ∧ (d, sid) ∈ hs := by
  rw [List.mem_filterMap]
  constructor
  · rintro ⟨p, hp, hf⟩
    by_cases hc : (p.2, sid) ∈ hs
    · rw [if_pos hc] at hf
      have hj : p.1 = j := Option.some.inj hf
      exact ⟨p.2, by rw [← hj]; exact hp, hc⟩
    · rw [if_neg hc] at hf
      cases hf
  · rintro ⟨d, htw, hhs⟩
    exact ⟨(j, d), htw, by rw [if_pos hhs]⟩

theorem diseasesWith_eq {st st1 : KB} {s : String} {sid : Nat}
    (hg : get_id_str st s = (some sid, st1)) :
    diseasesWith st (some s) =
      (Except.ok (namesOf st1
        (st1.hasSymptom.filterMap fun p => if p.2 = sid then some p.1 else none)), st1) := by
  have hg2 : get_id st (some s) = get_id_str st s := rfl
  unfold diseasesWith
  rw [hg2, hg]

theorem symptomsOf_eq {st st1 : KB} {s : String} {did : Nat}
    (hg : get_id_str st s = (some did, st1)) :
    symptomsOf st (some s) =
      (Except.ok (namesOf st1
        (st1.hasSymptom.filterMap fun p => if p.1 = did then some p.2 else none)), st1) := by
  have hg2 : get_id st (some s) = get_id_str st s := rfl
  unfold symptomsOf
  rw [hg2, hg]

theorem treatmentsOf_eq {st st1 : KB} {s : String} {did : Nat}
    (hg : get_id_str st s = (some did, st1)) :
    treatmentsOf st (some s) =
      (Except.ok (namesOf st1
        (st1.treatedWith.filterMap fun p => if p.2 = did then some p.1 else none)), st1) := by
  have hg2 : get_id st (some s) = get_id_str st s := rfl
  unfold treatmentsOf
  rw [hg2, hg]

theorem treatmentsFor_eq {st st1 : KB} {s : String} {sid : Nat}
    (hg : get_id_str st s = (some sid, st1)) :
    treatmentsFor st (some s) =
      (Except.ok (namesOf st1
        (st1.treatedWith.filterMap fun p =>
          if (p.2, sid) ∈ st1.hasSymptom then some p.1 else none)), st1) := by
  have hg2 : get_id st (some s) = get_id_str st s := rfl
  unfold treatmentsFor
  rw [hg2, hg]

/-- Membership in a Tab-1 diagnosis result, characterised over the pre-query
state: `x` is listed iff `x` is the interned name of a disease related by
`has_symptom` to the id interned for the cleaned query string. -/
theorem mem_diseasesWith {st : KB} {s : String} (h : KBInv st) (hs : s ≠ "") (x : String) :
    x ∈ okL (diseasesWith st (some s)).1 ↔
      ∃ did sid, alookup x st.strToId = some did ∧
        alookup (pyClean s) st.strToId = some sid ∧ (did, sid) ∈ st.hasSymptom := by
  rcases get_id_str_spec h hs with
    ⟨sid, st1, hg, h1, hm1, hhs, _, _, _, hbind, hcase⟩
  rw [diseasesWith_eq hg]
  show x ∈ namesOf st1 _ ↔ _
  have hdom : ∀ j, (j ∈ st1.hasSymptom.filterMap fun p =>
      if p.2 = sid then some p.1 else none) → (alookup j st.idToStr).isSome := by
    intro j hj
    have hj2 : (j, sid) ∈ st.hasSymptom := hhs ▸ mem_filterMap_snd.mp hj
    exact (h.hs_dom (j, sid) hj2).1
  rw [mem_namesOf h hm1 _ hdom]
  constructor
  · rintro ⟨j, hj, hx⟩
    have hj2 : (j, sid) ∈ st.hasSymptom := hhs ▸ mem_filterMap_snd.mp hj
    rcases hcase with ⟨hold, _⟩ | ⟨hnone, hctr, _⟩
    · exact ⟨j, sid, hx, hold, hj2⟩
    · exfalso
      have hd := (h.hs_dom (j, sid) hj2).2
      rcases Option.isSome_iff_exists.mp hd with ⟨k, hk⟩
      have := h.i2s_lt sid k hk
      omega
  · rintro ⟨did, sid0, hx, hbound, hmem⟩
    rcases hcase with ⟨hold, _⟩ | ⟨hnone, hctr, _⟩
    · have : sid0 = sid := Option.some.inj (hbound.symm.trans hold)
      subst this
      exact ⟨did, mem_filterMap_snd.mpr (hhs ▸ hmem), hx⟩
    · rw [hbound] at hnone
      cases hnone

/-- Membership in a Tab-2 symptom list, characterised over the pre-query
state. -/
theorem mem_symptomsOf {st : KB} {s : String} (h : KBInv st) (hs : s ≠ "") (x : String) :
    x ∈ okL (symptomsOf st (some s)).1 ↔
      ∃ did sid, alookup (pyClean s) st.strToId = some did ∧
        alookup x st.strToId = some sid ∧ (did, sid) ∈ st.hasSymptom := by
  rcases get_id_str_spec h hs with
    ⟨did, st1, hg, h1, hm1, hhs, _, _, _, hbind, hcase⟩
  rw [symptomsOf_eq hg]
  show x ∈ namesOf st1 _ ↔ _
  have hdom : ∀ j, (j ∈ st1.hasSymptom.filterMap fun p =>
      if p.1 = did then some p.2 else none) → (alookup j st.idToStr).isSome := by
    intro j hj
    have hj2 : (did, j) ∈ st.hasSymptom := hhs ▸ mem_filterMap_fst.mp hj
    exact (h.hs_dom (did, j) hj2).2
  rw [mem_namesOf h hm1 _ hdom]
  constructor
  · rintro ⟨j, hj, hx⟩
    have hj2 : (did, j) ∈ st.hasSymptom := hhs ▸ mem_filterMap_fst.mp hj
    rcases hcase with ⟨hold, _⟩ | ⟨hnone, hctr, _⟩
    · exact ⟨did, j, hold, hx, hj2⟩
    · exfalso
      have hd := (h.hs_dom (did, j) hj2).1
      rcases Option.isSome_iff_exists.mp hd with ⟨k, hk⟩
      have := h.i2s_lt did k hk
      omega
  · rintro ⟨did0, sid0, hbound, hx, hmem⟩
    rcases hcase with ⟨hold, _⟩ | ⟨hnone, hctr, _⟩
    · have : did0 = did := Option.some.inj (hbound.symm.trans hold)
      subst this
      exact ⟨sid0, mem_filterMap_fst.mpr (hhs ▸ hmem), hx⟩
    · rw [hbound] at hnone
      cases hnone

/-- Membership in a Tab-2 treatment list, characterised over the pre-query
state. -/
theorem mem_treatmentsOf {st : KB} {s : String} (h : KBInv st) (hs : s ≠ "") (x : String) :
    x ∈ okL (treatmentsOf st (some s)).1 ↔
      ∃ tid did, alookup x st.strToId = some tid ∧
        alookup (pyClean s) st.strToId = some did ∧ (tid, did) ∈ st.treatedWith := by
  rcases get_id_str_spec h hs with
    ⟨did, st1, hg, h1, hm1, _, htw, _, _, hbind, hcase⟩
  rw [treatmentsOf_eq hg]
  show x ∈ namesOf st1 _ ↔ _
  have hdom : ∀ j, (j ∈ st1.treatedWith.filterMap fun p =>
      if p.2 = did then some p.1 else none) → (alookup j st.idToStr).isSome := by
    intro j hj
    have hj2 : (j, did) ∈ st.treatedWith := htw ▸ mem_filterMap_snd.mp hj
    exact (h.tw_dom (j, did) hj2).1
  rw [mem_namesOf h hm1 _ hdom]
  constructor
  · rintro ⟨j, hj, hx⟩
    have hj2 : (j, did) ∈ st.treatedWith := htw ▸ mem_filterMap_snd.mp hj
    rcases hcase with ⟨hold, _⟩ | ⟨hnone, hctr, _⟩
    · exact ⟨j, did, hx, hold, hj2⟩
    · exfalso
      have hd := (h.tw_dom (j, did) hj2).2
      rcases Option.isSome_iff_exists.mp hd with ⟨k, hk⟩
      have := h.i2s_lt did k hk
      omega
  · rintro ⟨tid0, did0, hx, hbound, hmem⟩
    rcases hcase with ⟨hold, _⟩ | ⟨hnone, hctr, _⟩
    · have : did0 = did := Option.some.inj (hbound.symm.trans hold)
      subst this
      exact ⟨tid0, mem_filterMap_snd.mpr (htw ▸ hmem), hx⟩
    · rw [hbound] at hnone
      cases hnone

/-- Membership in a Tab-1 prescription result: exactly the `cures_symptom`
join of `treated_with` and `has_symptom`, characterised over the pre-query
state. -/
theorem mem_treatmentsFor {st : KB} {s : String} (h : KBInv st) (hs : s ≠ "") (x : String) :
    x ∈ okL (treatmentsFor st (some s)).1 ↔
      ∃ tid d sid, alookup x st.strToId = some tid ∧
        alookup (pyClean s) st.strToId = some sid ∧
        (tid, d) ∈ st.treatedWith ∧ (d, sid) ∈ st.hasSymptom := by
  rcases get_id_str_spec h hs with
    ⟨sid, st1, hg, h1, hm1, hhs, htw, _, _, hbind, hcase⟩
  rw [treatmentsFor_eq hg]
  show x ∈ namesOf st1 _ ↔ _
  have hdom : ∀ j, (j ∈ st1.treatedWith.filterMap fun p =>
      if (p.2, sid) ∈ st1.hasSymptom then some p.1 else none) →
      (alookup j st.idToStr).isSome := by
    intro j hj
    rcases mem_filterMap_join.mp hj with ⟨d, hjd, _⟩
    have hj2 : (j, d) ∈ st.treatedWith := htw ▸ hjd
    exact (h.tw_dom (j, d) hj2).1
  rw [mem_namesOf h hm1 _ hdom]
  constructor
  · rintro ⟨j, hj, hx⟩
    rcases mem_filterMap_join.mp hj with ⟨d, hjd, hds⟩
    have hj2 : (j, d) ∈ st.treatedWith := htw ▸ hjd
    have hds2 : (d, sid) ∈ st.hasSymptom := hhs ▸ hds
    rcases hcase with ⟨hold, _⟩ | ⟨hnone, hctr, _⟩
    · exact ⟨j, d, sid, hx, hold, hj2, hds2⟩
    · exfalso
      have hd := (h.hs_dom (d, sid) hds2).2
      rcases Option.isSome_iff_exists.mp hd with ⟨k, hk⟩
      have := h.i2s_lt sid k hk
      omega
  · rintro ⟨tid0, d0, sid0, hx, hbound, htw0, hhs0⟩
    rcases hcase with ⟨hold, _⟩ | ⟨hnone, hctr, _⟩
    · have : sid0 = sid := Option.some.inj (hbound.symm.trans hold)
      subst this
      exact ⟨tid0, mem_filterMap_join.mpr ⟨d0, htw ▸ htw0, hhs ▸ hhs0⟩, hx⟩
    · rw [hbound] at hnone
      cases hnone

theorem get_id_str_some (st : KB) {s : String} (hs : s ≠ "") :
    ∃ i st1, get_id_str st s = (some i, st1) := by
  unfold get_id_str
  rw [if_neg hs]
  cases alookup (pyClean s) st.strToId with
  | some i => exact ⟨i, st, rfl⟩
  | none => exact ⟨st.counter, intern st (pyClean s), rfl⟩

theorem loadTreatments_keeps :
    ∀ (l : List PyElem) (st : KB) (did : Option Nat),
      (loadTreatments st did l).hasSymptom = st.hasSymptom ∧
      (loadTreatments st did l).allSymptoms = st.allSymptoms ∧
      (loadTreatments st did l).allDiseases = st.allDiseases := by
  intro l
  induction l with
  | nil => intro st did; exact ⟨rfl, rfl, rfl⟩
  | cons v rest ih =>
    intro st did
    cases v with
    | nonStr => exact ⟨rfl, rfl, rfl⟩
    | str s =>
      rw [loadTreatments_cons_str]
      have hk := get_id_str_keeps st s
      cases hg : get_id_str st s with
      | mk r st1 =>
        rw [hg] at hk
        cases r with
        | none => exact ⟨hk.1, hk.2.2.1, hk.2.2.2⟩
        | some tid =>
          cases did with
          | none => exact ⟨hk.1, hk.2.2.1, hk.2.2.2⟩
          | some d =>
            show (loadTreatments
              { st1 with treatedWith := st1.treatedWith ++ [(tid, d)] } (some d) rest).hasSymptom
                = st.hasSymptom ∧ _ ∧ _
            rcases ih { st1 with treatedWith := st1.treatedWith ++ [(tid, d)] } (some d) with
              ⟨ih1, ih2, ih3⟩
            refine ⟨?_, ?_, ?_⟩
            · rw [ih1]; exact hk.1
            · rw [ih2]; exact hk.2.2.1
            · rw [ih3]; exact hk.2.2.2

theorem loadSymptoms_keeps :
    ∀ (l : List PyElem) (st : KB) (did : Option Nat),
      (loadSymptoms st did l).treatedWith = st.treatedWith ∧
      (loadSymptoms st did l).allDiseases = st.allDiseases := by
  intro l
  induction l with
  | nil => intro st did; exact ⟨rfl, rfl⟩
  | cons v rest ih =>
    intro st did
    cases v with
    | nonStr => exact ⟨rfl, rfl⟩
    | str s =>
      rw [loadSymptoms_cons_str]
      have hk := get_id_str_keeps st s
      cases hg : get_id_str st s with
      | mk r st1 =>
        rw [hg] at hk
        cases r with
        | none => exact ⟨hk.2.1, hk.2.2.2⟩
        | some sid =>
          cases did with
          | none => exact ⟨hk.2.1, hk.2.2.2⟩
          | some d =>
            show (loadSymptoms
              { st1 with
                  hasSymptom := st1.hasSymptom ++ [(d, sid)]
                  allSymptoms := addStr s st1.allSymptoms } (some d) rest).treatedWith
                = st.treatedWith ∧ _
            rcases ih { st1 with
                hasSymptom := st1.hasSymptom ++ [(d, sid)]
                allSymptoms := addStr s st1.allSymptoms } (some d) with ⟨ih1, ih2⟩
            refine ⟨?_, ?_⟩
            · rw [ih1]; exact hk.2.1
            · rw [ih2]; exact hk.2.2.2

theorem loadSymptoms_allSymptoms_mono :
    ∀ (l : List PyElem) (st : KB) (did : Option Nat) (x : String),
      x ∈ st.allSymptoms → x ∈ (loadSymptoms st did l).allSymptoms := by
  intro l
  induction l with
  | nil => intro st did x hx; exact hx
  | cons v rest ih =>
    intro st did x hx
    cases v with
    | nonStr => exact hx
    | str s =>
      rw [loadSymptoms_cons_str]
      have hk := get_id_str_keeps st s
      cases hg : get_id_str st s with
      | mk r st1 =>
        rw [hg] at hk
        have hx1 : x ∈ st1.allSymptoms := hk.2.2.1 ▸ hx
        cases r with
        | none => exact hx1
        | some sid =>
          cases did with
          | none => exact hx1
          | some d =>
            show x ∈ (loadSymptoms
              { st1 with
                  hasSymptom := st1.hasSymptom ++ [(d, sid)]
                  allSymptoms := addStr s st1.allSymptoms } (some d) rest).allSymptoms
            exact ih _ (some d) x (addStr_mono hx1)

theorem loadSymptoms_abort :
    ∀ (pre : List PyElem) (st : KB) (did : Option Nat) (v : PyElem)
      (hv : v = PyElem.nonStr ∨ v = PyElem.str "") (post : List PyElem),
      loadSymptoms st did (pre ++ v :: post) = loadSymptoms st did pre := by
  intro pre
  induction pre with
  | nil =>
    intro st did v hv post
    rcases hv with rfl | rfl
    · rfl
    · show loadSymptoms st did (PyElem.str "" :: post) = st
      rw [loadSymptoms_cons_str, get_id_str_empty]
  | cons w pre ih =>
    intro st did v hv post
    cases w with
    | nonStr => rfl
    | str s =>
      have hsplit : (PyElem.str s :: pre) ++ v :: post = PyElem.str s :: (pre ++ v :: post) := rfl
      rw [hsplit, loadSymptoms_cons_str, loadSymptoms_cons_str]
      cases hg : get_id_str st s with
      | mk r st1 =>
        cases r with
        | none => rfl
        | some sid =>
          cases did with
          | none => rfl
          | some d =>
            show loadSymptoms
                { st1 with
                    hasSymptom := st1.hasSymptom ++ [(d, sid)]
                    allSymptoms := addStr s st1.allSymptoms } (some d) (pre ++ v :: post) =
              loadSymptoms
                { st1 with
                    hasSymptom := st1.hasSymptom ++ [(d, sid)]
                    allSymptoms := addStr s st1.allSymptoms } (some d) pre
            exact ih _ (some d) v hv post

theorem loadTreatCell_keeps (st : KB) (did : Option Nat) (c : Option Cell) :
    (loadTreatCell st did c).hasSymptom = st.hasSymptom ∧
    (loadTreatCell st did c).allSymptoms = st.allSymptoms ∧
    (loadTreatCell st did c).allDiseases = st.allDiseases := by
  cases c with
  | none => exact ⟨rfl, rfl, rfl⟩
  | some cc =>
    cases cc with
    | bad => exact ⟨rfl, rfl, rfl⟩
    | elems l => exact loadTreatments_keeps l st did

theorem diseasesWith_snd (st : KB) (sel : Option String) :
    (diseasesWith st sel).2 = (get_id st sel).2 := by
  unfold diseasesWith
  cases hg : get_id st sel with
  | mk r st1 => cases r <;> rfl

theorem symptomsOf_snd (st : KB) (sel : Option String) :
    (symptomsOf st sel).2 = (get_id st sel).2 := by
  unfold symptomsOf
  cases hg : get_id st sel with
  | mk r st1 => cases r <;> rfl

theorem treatmentsOf_snd (st : KB) (sel : Option String) :
    (treatmentsOf st sel).2 = (get_id st sel).2 := by
  unfold treatmentsOf
  cases hg : get_id st sel with
  | mk r st1 => cases r <;> rfl

theorem treatmentsFor_snd (st : KB) (sel : Option String) :
    (treatmentsFor st sel).2 = (get_id st sel).2 := by
  unfold treatmentsFor
  cases hg : get_id st sel with
  | mk r st1 => cases r <;> rfl

theorem queries_raise (st : KB) :
    (diseasesWith st none).1 = Except.error () ∧
    (symptomsOf st none).1 = Except.error () ∧
    (treatmentsOf st none).1 = Except.error () ∧
    (treatmentsFor st none).1 = Except.error () ∧
    (diseasesWith st (some "")).1 = Except.error () ∧
    (symptomsOf st (some "")).1 = Except.error () ∧
    (treatmentsOf st (some "")).1 = Except.error () ∧
    (treatmentsFor st (some "")).1 = Except.error () := by
  have hg : get_id st (some "") = (none, st) := get_id_str_empty st
  refine ⟨rfl, rfl, rfl, rfl, ?_, ?_, ?_, ?_⟩
  · unfold diseasesWith; rw [hg]
  · unfold symptomsOf; rw [hg]
  · unfold treatmentsOf; rw [hg]
  · unfold treatmentsFor; rw [hg]

/-- C1 (counterexample): on the table with one disease "D" whose symptom cell
holds " x", the loaded raw symptom name " x" and disease name "D" violate the
claimed biconditional: "D" is listed by diseasesWith(" x") yet " x" is not
listed by symptomsOf("D") (the result shows the cleaned name "x"). -/
theorem C1_counterexample :
    " x" ∈ (load_rows spacedRows).allSymptoms ∧
    "D" ∈ (load_rows spacedRows).allDiseases ∧
    ¬ (("D" ∈ okL (diseasesWith (load_rows spacedRows) (some " x")).1) ↔
       (" x" ∈ okL (symptomsOf (load_rows spacedRows) (some "D")).1)) := by
  decide

/-- C1 (amended): for every loaded state and all nonempty name strings s and
d, the cleaned form of d is listed by diseasesWith(s) iff the cleaned form of
s is listed by symptomsOf(d); both directions are decided by the same
has_symptom fact list. -/
theorem C1_join_symmetry (st : KB) (h : KBInv st) (s d : String)
    (hs : s ≠ "") (hd : d ≠ "") :
    (pyClean d ∈ okL (diseasesWith st (some s)).1 ↔
      pyClean s ∈ okL (symptomsOf st (some d)).1) := by
  rw [mem_diseasesWith h hs (pyClean d), mem_symptomsOf h hd (pyClean s)]

/-- C1 (witness): the amended symmetry evaluated on the example table. -/
theorem C1_witness :
    (pyClean "Anthracnose" ∈ okL (diseasesWith (load_rows exampleRows) (some "leaf spot")).1 ↔
      pyClean "leaf spot" ∈ okL (symptomsOf (load_rows exampleRows) (some "Anthracnose")).1) :=
  C1_join_symmetry (load_rows exampleRows) (kbInv_load_rows exampleRows)
    "leaf spot" "Anthracnose" (by decide) (by decide)

/-- C2 (counterexample): on the table whose disease name is interned as
" D ", treatmentsFor("s") answers ["t"] through the cures_symptom join, but
the sorted union of treatmentsOf(d) over the names d listed by
diseasesWith("s") is empty, because treatmentsOf re-cleans the already
cleaned name " D " down to "D", which is not interned. -/
theorem C2_counterexample :
    okL (treatmentsFor (load_rows quotedRows) (some "s")).1 = ["t"] ∧
    okL (diseasesWith (load_rows quotedRows) (some "s")).1 = [" D "] ∧
    okL (treatmentsOf (load_rows quotedRows) (some " D ")).1 = [] ∧
    treatmentsForSpecUnion (load_rows quotedRows) "s" = [] := by
  decide

/-- C2 (amended): for every loaded state, nonempty symptom name s and any
name t, t is listed by treatmentsFor(s) iff t is the interned name of a
treatment related by treated_with to some disease d that is related by
has_symptom to the id interned for the cleaned s - the cures_symptom join at
the id level.  (The reformulation as a union of treatmentsOf over the names
returned by diseasesWith fails when an interned name is not a fixpoint of
cleaning, as C2_counterexample shows.) -/
theorem C2_join_characterisation (st : KB) (h : KBInv st) (s x : String) (hs : s ≠ "") :
    (x ∈ okL (treatmentsFor st (some s)).1 ↔
      ∃ tid d sid, alookup x st.strToId = some tid ∧
        alookup (pyClean s) st.strToId = some sid ∧
        (tid, d) ∈ st.treatedWith ∧ (d, sid) ∈ st.hasSymptom) :=
  mem_treatmentsFor h hs x

/-- C2 (witness): the join characterisation evaluated on the example table. -/
theorem C2_witness :
    ("copper fungicide" ∈ okL (treatmentsFor (load_rows exampleRows) (some "leaf spot")).1 ↔
      ∃ tid d sid, alookup "copper fungicide" (load_rows exampleRows).strToId = some tid ∧
        alookup (pyClean "leaf spot") (load_rows exampleRows).strToId = some sid ∧
        (tid, d) ∈ (load_rows exampleRows).treatedWith ∧
        (d, sid) ∈ (load_rows exampleRows).hasSymptom) :=
  C2_join_characterisation (load_rows exampleRows) (kbInv_load_rows exampleRows)
    "leaf spot" "copper fungicide" (by decide)

/-- C3 (counterexample): a symptoms cell that is "not a list of strings"
(here ["a", non-string]) does NOT leave the row without symptoms: the string
prefix before the first bad element is recorded as a has_symptom fact. -/
theorem C3_counterexample :
    (load_rows mixedRows).hasSymptom = [(1, 2)] ∧
    getName (load_rows mixedRows) 2 = "a" ∧
    (load_rows mixedRows).allDiseases = ["D"] := by
  decide

/-- C3 (amended): a row whose symptoms cell is unparsable or missing
registers the disease but records no symptoms at all; a cell that parses to a
list records exactly the symptoms of the longest prefix of nonempty string
elements, aborting at the first non-string or empty-string element; the
loader is total, so no user-visible error is raised. -/
theorem C3_malformed_rows (st : KB) (nm : String) (tc : Option Cell) (did : Option Nat)
    (pre post : List PyElem) (v : PyElem)
    (hv : v = PyElem.nonStr ∨ v = PyElem.str "") :
    (loadRow st ⟨nm, some Cell.bad, tc⟩).hasSymptom = st.hasSymptom ∧
    (loadRow st ⟨nm, none, tc⟩).hasSymptom = st.hasSymptom ∧
    nm ∈ (loadRow st ⟨nm, some Cell.bad, tc⟩).allDiseases ∧
    nm ∈ (loadRow st ⟨nm, none, tc⟩).allDiseases ∧
    loadSymptoms st did (pre ++ v :: post) = loadSymptoms st did pre := by
  cases hg : get_id_str st nm with
  | mk r st0 =>
    have hrw1 := loadRow_eq st ⟨nm, some Cell.bad, tc⟩ r st0 hg
    have hrw2 := loadRow_eq st ⟨nm, none, tc⟩ r st0 hg
    have hkeep := get_id_str_keeps st nm
    rw [hg] at hkeep
    refine ⟨?_, ?_, ?_, ?_, loadSymptoms_abort pre st did v hv post⟩
    · rw [hrw1]
      show (loadTreatCell { st0 with allDiseases := addStr nm st0.allDiseases }
        r tc).hasSymptom = st.hasSymptom
      rw [(loadTreatCell_keeps _ r tc).1]
      exact hkeep.1
    · rw [hrw2]
      show (loadTreatCell { st0 with allDiseases := addStr nm st0.allDiseases }
        r tc).hasSymptom = st.hasSymptom
      rw [(loadTreatCell_keeps _ r tc).1]
      exact hkeep.1
    · rw [hrw1]
      show nm ∈ (loadTreatCell { st0 with allDiseases := addStr nm st0.allDiseases }
        r tc).allDiseases
      rw [(loadTreatCell_keeps _ r tc).2.2]
      exact addStr_self nm st0.allDiseases
    · rw [hrw2]
      show nm ∈ (loadTreatCell { st0 with allDiseases := addStr nm st0.allDiseases }
        r tc).allDiseases
      rw [(loadTreatCell_keeps _ r tc).2.2]
      exact addStr_self nm st0.allDiseases

/-- C3 (witness): the amended statement evaluated on a one-row table whose
symptom list is ["a", non-string]. -/
theorem C3_witness :
    (loadRow emptyKB ⟨"D", some Cell.bad, none⟩).hasSymptom = emptyKB.hasSymptom ∧
    (loadRow emptyKB ⟨"D", none, none⟩).hasSymptom = emptyKB.hasSymptom ∧
    "D" ∈ (loadRow emptyKB ⟨"D", some Cell.bad, none⟩).allDiseases ∧
    "D" ∈ (loadRow emptyKB ⟨"D", none, none⟩).allDiseases ∧
    loadSymptoms emptyKB (some 1) ([PyElem.str "a"] ++ PyElem.nonStr :: []) =
      loadSymptoms emptyKB (some 1) [PyElem.str "a"] :=
  C3_malformed_rows emptyKB "D" none (some 1) [PyElem.str "a"] [] PyElem.nonStr (Or.inl rfl)

/-- C4 (counterexample): querying symptomsOf with the unregistered name "x"
on the knowledge base loaded from no rows adds a fresh interning mapping:
the name-to-id map is no longer empty afterwards. -/
theorem C4_counterexample :
    (load_rows []).strToId = [] ∧
    ((symptomsOf (load_rows []) (some "x")).2).strToId = [("x", 1)] :=
  ⟨rfl, rfl⟩

/-- C4 (amended): after load, no query operation changes the fact relations
or the symptom and disease name lists, and every existing interning entry is
preserved; a query on a name whose cleaned form is already interned (as every
name offered by the UI dropdowns is) leaves the state entirely unchanged; but
a query on a nonempty name whose cleaned form is unregistered does create one
fresh name-to-id mapping. -/
theorem C4_query_state (st : KB) (h : KBInv st) (sel : Option String) :
    ((diseasesWith st sel).2 = (get_id st sel).2 ∧
     (symptomsOf st sel).2 = (get_id st sel).2 ∧
     (treatmentsOf st sel).2 = (get_id st sel).2 ∧
     (treatmentsFor st sel).2 = (get_id st sel).2) ∧
    (get_id st sel).2.hasSymptom = st.hasSymptom ∧
    (get_id st sel).2.treatedWith = st.treatedWith ∧
    (get_id st sel).2.allSymptoms = st.allSymptoms ∧
    (get_id st sel).2.allDiseases = st.allDiseases ∧
    MapsExt st (get_id st sel).2 ∧
    (∀ s2, sel = some s2 → s2 ≠ "" →
      (alookup (pyClean s2) st.strToId).isSome → (get_id st sel).2 = st) ∧
    (∀ s2, sel = some s2 → s2 ≠ "" → alookup (pyClean s2) st.strToId = none →
      alookup (pyClean s2) (get_id st sel).2.strToId = some st.counter) := by
  refine ⟨⟨diseasesWith_snd st sel, symptomsOf_snd st sel,
    treatmentsOf_snd st sel, treatmentsFor_snd st sel⟩, ?_⟩
  cases sel with
  | none =>
    exact ⟨rfl, rfl, rfl, rfl, mapsExt_refl st,
      fun s2 hs2 => Option.noConfusion hs2, fun s2 hs2 => Option.noConfusion hs2⟩
  | some s =>
    by_cases hse : s = ""
    · subst hse
      have hgg : get_id st (some "") = (none, st) := get_id_str_empty st
      rw [hgg]
      refine ⟨rfl, rfl, rfl, rfl, mapsExt_refl st, ?_, ?_⟩
      · intro s2 hs2 hne _
        cases Option.some.inj hs2
        exact absurd rfl hne
      · intro s2 hs2 hne _
        cases Option.some.inj hs2
        exact absurd rfl hne
    · rcases get_id_str_spec h hse with
        ⟨i, st1, hg, h1, hm1, hhs, htw, hsym, hdis, hbind, hcase⟩
      have hgg : get_id st (some s) = (some i, st1) := hg
      rw [hgg]
      refine ⟨hhs, htw, hsym, hdis, hm1, ?_, ?_⟩
      · intro s2 hs2 _ hreg
        cases Option.some.inj hs2
        rcases hcase with ⟨_, hst⟩ | ⟨hnone, _, _⟩
        · exact hst
        · rw [hnone] at hreg
          exact Bool.noConfusion hreg
      · intro s2 hs2 _ hreg
        cases Option.some.inj hs2
        rcases hcase with ⟨hold, _⟩ | ⟨hnone, hctr, _⟩
        · rw [hold] at hreg
          cases hreg
        · rw [← hctr]
          exact hbind

/-- C4 (witness): a query on a registered name leaves the loaded state
entirely unchanged. -/
theorem C4_witness :
    (symptomsOf (load_rows exampleRows) (some "leaf spot")).2 = load_rows exampleRows := by
  have hc := C4_query_state (load_rows exampleRows) (kbInv_load_rows exampleRows)
    (some "leaf spot")
  rw [hc.1.2.1]
  exact hc.2.2.2.2.2.2.1 "leaf spot" rfl (by decide) (by decide)

/-- C5 (counterexample): the empty string is a name that was never registered
at load time, yet symptomsOf applied to it raises (the None id is passed to
the Z3 relation) instead of returning an empty result. -/
theorem C5_counterexample :
    (load_rows []).strToId = [] ∧
    (symptomsOf (load_rows []) (some "")).1 = Except.error () :=
  ⟨rfl, rfl⟩

/-- C5 (amended): for every nonempty name string whose cleaned form was not
interned at load time, each of the four query operations returns the empty
result and no error. -/
theorem C5_unknown_empty (st : KB) (h : KBInv st) (s : String) (hs : s ≠ "")
    (hreg : alookup (pyClean s) st.strToId = none) :
    (diseasesWith st (some s)).1 = Except.ok [] ∧
    (symptomsOf st (some s)).1 = Except.ok [] ∧
    (treatmentsOf st (some s)).1 = Except.ok [] ∧
    (treatmentsFor st (some s)).1 = Except.ok [] := by
  rcases get_id_str_spec h hs with
    ⟨i, st1, hg, h1, hm1, hhs, htw, _, _, hbind, hcase⟩
  rcases hcase with ⟨hold, _⟩ | ⟨hnone, hctr, _⟩
  · rw [hold] at hreg
    cases hreg
  · subst hctr
    have hfs : ∀ p, p ∈ st.hasSymptom → p.1 < st.counter ∧ p.2 < st.counter := by
      intro p hp
      rcases Option.isSome_iff_exists.mp (h.hs_dom p hp).1 with ⟨k1, hk1⟩
      rcases Option.isSome_iff_exists.mp (h.hs_dom p hp).2 with ⟨k2, hk2⟩
      exact ⟨h.i2s_lt p.1 k1 hk1, h.i2s_lt p.2 k2 hk2⟩
    have hft : ∀ p, p ∈ st.treatedWith → p.1 < st.counter ∧ p.2 < st.counter := by
      intro p hp
      rcases Option.isSome_iff_exists.mp (h.tw_dom p hp).1 with ⟨k1, hk1⟩
      rcases Option.isSome_iff_exists.mp (h.tw_dom p hp).2 with ⟨k2, hk2⟩
      exact ⟨h.i2s_lt p.1 k1 hk1, h.i2s_lt p.2 k2 hk2⟩
    refine ⟨?_, ?_, ?_, ?_⟩
    · rw [diseasesWith_eq hg]
      show Except.ok (namesOf st1 _) = Except.ok []
      have hM : (st1.hasSymptom.filterMap fun p =>
          if p.2 = st.counter then some p.1 else none) = [] := by
        rw [List.filterMap_eq_nil_iff]
        intro p hp
        have hlt := (hfs p (hhs ▸ hp)).2
        rw [if_neg (by omega)]
      rw [hM]
      rfl
    · rw [symptomsOf_eq hg]
      show Except.ok (namesOf st1 _) = Except.ok []
      have hM : (st1.hasSymptom.filterMap fun p =>
          if p.1 = st.counter then some p.2 else none) = [] := by
        rw [List.filterMap_eq_nil_iff]
        intro p hp
        have hlt := (hfs p (hhs ▸ hp)).1
        rw [if_neg (by omega)]
      rw [hM]
      rfl
    · rw [treatmentsOf_eq hg]
      show Except.ok (namesOf st1 _) = Except.ok []
      have hM : (st1.treatedWith.filterMap fun p =>
          if p.2 = st.counter then some p.1 else none) = [] := by
        rw [List.filterMap_eq_nil_iff]
        intro p hp
        have hlt := (hft p (htw ▸ hp)).2
        rw [if_neg (by omega)]
      rw [hM]
      rfl
    · rw [treatmentsFor_eq hg]
      show Except.ok (namesOf st1 _) = Except.ok []
      have hM : (st1.treatedWith.filterMap fun p =>
          if (p.2, st.counter) ∈ st1.hasSymptom then some p.1 else none) = [] := by
        rw [List.filterMap_eq_nil_iff]
        intro p hp
        rw [if_neg]
        intro hmem
        have hlt := (hfs (p.2, st.counter) (hhs ▸ hmem)).2
        exact absurd hlt (lt_irrefl st.counter)
      rw [hM]
      rfl

/-- C5 (witness): the four empty answers for the unknown name "zzz" on the
example table. -/
theorem C5_witness :
    (diseasesWith (load_rows exampleRows) (some "zzz")).1 = Except.ok [] ∧
    (symptomsOf (load_rows exampleRows) (some "zzz")).1 = Except.ok [] ∧
    (treatmentsOf (load_rows exampleRows) (some "zzz")).1 = Except.ok [] ∧
    (treatmentsFor (load_rows exampleRows) (some "zzz")).1 = Except.ok [] :=
  C5_unknown_empty (load_rows exampleRows) (kbInv_load_rows exampleRows)
    "zzz" (by decide) (by decide)

/-- C6 (counterexample): a query on the empty name raises instead of
returning the empty sequence, although nothing matches it. -/
theorem C6_counterexample :
    (treatmentsFor (load_rows exampleRows) (some "")).1 = Except.error () := rfl

/-- C6 (amended): whenever a query operation returns a result, that result is
strictly ascending in codepoint order and duplicate-free; on every nonempty
name each operation does return a result (so a no-match query yields the
empty list rather than an error); the empty or missing selection instead
raises. -/
theorem C6_sorted_results (st : KB) (sel : Option String) :
    ((∀ l, (diseasesWith st sel).1 = Except.ok l → SortedStr l ∧ l.Nodup) ∧
     (∀ l, (symptomsOf st sel).1 = Except.ok l → SortedStr l ∧ l.Nodup) ∧
     (∀ l, (treatmentsOf st sel).1 = Except.ok l → SortedStr l ∧ l.Nodup) ∧
     (∀ l, (treatmentsFor st sel).1 = Except.ok l → SortedStr l ∧ l.Nodup)) ∧
    (∀ s2, sel = some s2 → s2 ≠ "" →
      (∃ l, (diseasesWith st sel).1 = Except.ok l) ∧
      (∃ l, (symptomsOf st sel).1 = Except.ok l) ∧
      (∃ l, (treatmentsOf st sel).1 = Except.ok l) ∧
      (∃ l, (treatmentsFor st sel).1 = Except.ok l)) ∧
    ((diseasesWith st (some "")).1 = Except.error () ∧
     (symptomsOf st none).1 = Except.error ()) := by
  have hq := queries_raise st
  refine ⟨?_, ?_, hq.2.2.2.2.1, hq.2.1⟩
  · cases sel with
    | none =>
      exact ⟨fun l hl => Except.noConfusion hl, fun l hl => Except.noConfusion hl,
        fun l hl => Except.noConfusion hl, fun l hl => Except.noConfusion hl⟩
    | some s =>
      by_cases hse : s = ""
      · subst hse
        refine ⟨fun l hl => ?_, fun l hl => ?_, fun l hl => ?_, fun l hl => ?_⟩
        · rw [hq.2.2.2.2.1] at hl; exact Except.noConfusion hl
        · rw [hq.2.2.2.2.2.1] at hl; exact Except.noConfusion hl
        · rw [hq.2.2.2.2.2.2.1] at hl; exact Except.noConfusion hl
        · rw [hq.2.2.2.2.2.2.2] at hl; exact Except.noConfusion hl
      · rcases get_id_str_some st hse with ⟨i, st1, hg⟩
        refine ⟨fun l hl => ?_, fun l hl => ?_, fun l hl => ?_, fun l hl => ?_⟩
        · rw [diseasesWith_eq hg] at hl
          have he : namesOf st1 _ = l := Except.ok.inj hl
          rw [← he]
          exact ⟨sortedStr_sortDedup _, nodup_sortDedup _⟩
        · rw [symptomsOf_eq hg] at hl
          have he : namesOf st1 _ = l := Except.ok.inj hl
          rw [← he]
          exact ⟨sortedStr_sortDedup _, nodup_sortDedup _⟩
        · rw [treatmentsOf_eq hg] at hl
          have he : namesOf st1 _ = l := Except.ok.inj hl
          rw [← he]
          exact ⟨sortedStr_sortDedup _, nodup_sortDedup _⟩
        · rw [treatmentsFor_eq hg] at hl
          have he : namesOf st1 _ = l := Except.ok.inj hl
          rw [← he]
          exact ⟨sortedStr_sortDedup _, nodup_sortDedup _⟩
  · intro s2 hsel hne
    subst hsel
    rcases get_id_str_some st hne with ⟨i, st1, hg⟩
    exact ⟨⟨_, by rw [diseasesWith_eq hg]⟩, ⟨_, by rw [symptomsOf_eq hg]⟩,
      ⟨_, by rw [treatmentsOf_eq hg]⟩, ⟨_, by rw [treatmentsFor_eq hg]⟩⟩

/-- C6 (witness): the diagnosis list for "leaf spot" on the example table is
strictly sorted and duplicate-free. -/
theorem C6_witness :
    SortedStr ["Anthracnose", "Husk Rot"] ∧ (["Anthracnose", "Husk Rot"] : List String).Nodup :=
  (C6_sorted_results (load_rows exampleRows) (some "leaf spot")).1.1
    ["Anthracnose", "Husk Rot"] rfl

/-- C7: on the two-row example table, diseasesWith("leaf spot") answers
exactly ["Anthracnose", "Husk Rot"] and treatmentsFor("leaf spot") answers
exactly ["copper fungicide", "fungicide X"]. -/
theorem C7_example_table :
    (diseasesWith (load_rows exampleRows) (some "leaf spot")).1 =
      Except.ok ["Anthracnose", "Husk Rot"] ∧
    (treatmentsFor (load_rows exampleRows) (some "leaf spot")).1 =
      Except.ok ["copper fungicide", "fungicide X"] :=
  ⟨rfl, rfl⟩

/-- C8: load_kb yields the missing marker exactly when the file is absent,
and the startup sequence runs the app exactly when the file is present,
surfacing the user-visible not-found message otherwise. -/
theorem C8_missing_file (file : Option (List Row)) :
    (load_kb file).isNone = file.isNone ∧
    (app_start file).isOk = file.isSome ∧
    app_start none = Except.error kbMissingMsg := by
  refine ⟨?_, ?_, rfl⟩ <;> cases file <;> rfl

/-- C9: the empty or missing selection makes get_id return None, and every
query operation invoked on that None id raises instead of answering. -/
theorem C9_none_raises (st : KB) :
    (get_id st (some "")).1 = none ∧ (get_id st none).1 = none ∧
    (diseasesWith st none).1 = Except.error () ∧
    (diseasesWith st (some "")).1 = Except.error () ∧
    (symptomsOf st none).1 = Except.error () ∧
    (symptomsOf st (some "")).1 = Except.error () ∧
    (treatmentsOf st none).1 = Except.error () ∧
    (treatmentsOf st (some "")).1 = Except.error () ∧
    (treatmentsFor st none).1 = Except.error () ∧
    (treatmentsFor st (some "")).1 = Except.error () := by
  have hq := queries_raise st
  have hgg : get_id st (some "") = (none, st) := get_id_str_empty st
  refine ⟨?_, rfl, hq.1, hq.2.2.2.2.1, hq.2.1, hq.2.2.2.2.2.1, hq.2.2.1,
    hq.2.2.2.2.2.2.1, hq.2.2.2.1, hq.2.2.2.2.2.2.2⟩
  rw [hgg]

/-- C10 (counterexample): the empty string and the single space are equal
after cleaning, yet get_id does not map them to the same id: the empty string
is mapped to None while the space is interned (as the empty cleaned name)
under a fresh id. -/
theorem C10_counterexample :
    pyClean "" = pyClean " " ∧
    (get_id_str emptyKB "").1 = none ∧
    (get_id_str emptyKB " ").1 = some 1 := by
  decide

/-- C10 (amended): two NONEMPTY name strings are mapped to the same internal
id exactly when they agree after stripping surrounding whitespace and quote
characters (the empty string gets None rather than an id); the loader's
all-symptom list retains the raw uncleaned element strings; and every name in
a query result is an interned (stripped) name. -/
theorem C10_interning (st : KB) (h : KBInv st) (x y : String)
    (hx : x ≠ "") (hy : y ≠ "") :
    ((get_id_str (get_id_str st x).2 y).1 = (get_id_str st x).1 ↔
      pyClean x = pyClean y) ∧
    (∀ d s2 rest, s2 ≠ "" →
      s2 ∈ (loadSymptoms st (some d) (PyElem.str s2 :: rest)).allSymptoms) ∧
    (∀ z, z ∈ okL (diseasesWith st (some x)).1 → (alookup z st.strToId).isSome) := by
  refine ⟨?_, ?_, ?_⟩
  · rcases get_id_str_spec h hx with
      ⟨i, st1, hg1, h1, _, _, _, _, _, hbind1, _⟩
    rw [hg1]
    show (get_id_str st1 y).1 = some i ↔ pyClean x = pyClean y
    rcases get_id_str_spec h1 hy with
      ⟨j, st2, hg2, _, _, _, _, _, _, _, hcase2⟩
    rw [hg2]
    show some j = some i ↔ pyClean x = pyClean y
    constructor
    · intro hj
      have hji : j = i := Option.some.inj hj
      subst hji
      rcases hcase2 with ⟨hold2, _⟩ | ⟨hnone2, hctr2, _⟩
      · have e1 := h1.s2i_i2s (pyClean x) j hbind1
        have e2 := h1.s2i_i2s (pyClean y) j hold2
        exact Option.some.inj (e1.symm.trans e2)
      · have hlt : j < st1.counter := h1.s2i_lt (pyClean x) j hbind1
        omega
    · intro heq
      rcases hcase2 with ⟨hold2, _⟩ | ⟨hnone2, _, _⟩
      · rw [← heq] at hold2
        rw [hold2] at hbind1
        exact congrArg some (Option.some.inj hbind1)
      · rw [← heq, hbind1] at hnone2
        cases hnone2
  · intro d s2 rest hs2
    rcases get_id_str_some st hs2 with ⟨i, st1, hg⟩
    rw [loadSymptoms_cons_str, hg]
    show s2 ∈ (loadSymptoms
      { st1 with
          hasSymptom := st1.hasSymptom ++ [(d, i)]
          allSymptoms := addStr s2 st1.allSymptoms } (some d) rest).allSymptoms
    exact loadSymptoms_allSymptoms_mono rest _ (some d) s2 (addStr_self s2 st1.allSymptoms)
  · intro z hz
    rw [mem_diseasesWith h hx z] at hz
    rcases hz with ⟨did, sid, hzb, _, _⟩
    rw [hzb]
    rfl

/-- C10 (witness): the amended statement evaluated on the example table with
the clean-equal pair "leaf spot" and " leaf spot ". -/
theorem C10_witness :
    ((get_id_str (get_id_str (load_rows exampleRows) "leaf spot").2 " leaf spot ").1 =
      (get_id_str (load_rows exampleRows) "leaf spot").1 ↔
      pyClean "leaf spot" = pyClean " leaf spot ") ∧
    " dieback" ∈ (loadSymptoms (load_rows exampleRows) (some 1)
      [PyElem.str " dieback"]).allSymptoms ∧
    (alookup "Anthracnose" (load_rows exampleRows).strToId).isSome := by
  have hc := C10_interning (load_rows exampleRows) (kbInv_load_rows exampleRows)
    "leaf spot" " leaf spot " (by decide) (by decide)
  exact ⟨hc.1, hc.2.1 1 " dieback" [] (by decide), hc.2.2 "Anthracnose" (by decide)⟩
